import Mathlib

/-!
Shallow embedding of the inflow-client rate-limited API client
(createClient in dist/index: parseRetryAfter, cleanOldTimestamps,
calculateOptimalWait, rateLimitedFetch, clientGet, clientPut, extractId,
clientGetAll), together with theorems settling the specification claims.

Timestamps and durations are modelled as Int (milliseconds); JSON values
as an inductive JValue; the HTTP transport as a function from attempt
index to response.
-/

namespace Inflow

/-- Constants from the source. -/
def RATE_LIMIT_DELAY : Int := 1200

def MAX_RETRIES : Nat := 3

def DEFAULT_RETRY_DELAY : Int := 60000

def DEFAULT_WINDOW_THRESHOLD : Int := 20

def DEFAULT_WINDOW_DURATION : Int := 3600000

def DEFAULT_BUFFER_REQUESTS : Nat := 50

/-- JSON values, the shape over which response bodies and items range. -/
inductive JValue where
  | jnull
  | jbool (b : Bool)
  | jnum (n : Int)
  | jstr (s : String)
  | jarr (elems : List JValue)
  | jobj (fields : List (String × JValue))

/-- String suffix test on the character lists, the semantics of the
endsWith check used by extractId. -/
def strEndsWith (s pat : String) : Bool :=
  pat.data.isSuffixOf s.data

/-- Embeds the key-scanning loop of extractId: the first own field whose
name ends in the suffix Id and whose value is a string wins. -/
def extractIdFields : List (String × JValue) → Option String
  | [] => none
  | (k, v) :: rest =>
    match v with
    | JValue.jstr s => if strEndsWith k "Id" then some s else extractIdFields rest
    | _ => extractIdFields rest

/-- Embeds extractId: null and non-objects yield no identifier (JS
typeof checks); otherwise scan the fields in order. Arrays expose only
numeric index keys, none of which ends in the Id suffix, so they also
yield none. -/
def extractId : JValue → Option String
  | JValue.jobj fields => extractIdFields fields
  | _ => none

/-- First field of a JS object with the given key (JS objects have unique
keys; the embedding takes the first binding). -/
def lookupField : List (String × JValue) → String → Option JValue
  | [], _ => none
  | (k, v) :: rest, key => if k = key then some v else lookupField rest key

/-- The three body shapes clientGetAll distinguishes. -/
inductive PageShape where
  | pageItems (items : List JValue)
  | single (v : JValue)

/-- Embeds the body-shape dispatch of clientGetAll: an array is a page;
an object whose value field holds an array is an envelope page; anything
else (including null, primitives, and objects without a value array) is
a single bare item. -/
def interpretResponse : JValue → PageShape
  | JValue.jarr elems => PageShape.pageItems elems
  | JValue.jobj fields =>
    match lookupField fields "value" with
    | some (JValue.jarr elems) => PageShape.pageItems elems
    | _ => PageShape.single (JValue.jobj fields)
  | v => PageShape.single v

/-- Items of a response when it is a page; empty for a single bare item
(used only to phrase hypotheses about servers). -/
def pageItemsOf (v : JValue) : List JValue :=
  match interpretResponse v with
  | PageShape.pageItems items => items
  | PageShape.single _ => []

/-- Embeds the per-page for-loop of clientGetAll. JS truthiness of the
extracted id means the empty string is treated like a missing id. State:
seen ids, accumulated items, newCount. -/
def processItems : List JValue → List String → List JValue → Nat →
    List String × List JValue × Nat
  | [], seen, acc, newCount => (seen, acc, newCount)
  | item :: rest, seen, acc, newCount =>
    match extractId item with
    | some id =>
      if id ≠ "" ∧ id ∉ seen then
        processItems rest (seen ++ [id]) (acc ++ [item]) (newCount + 1)
      else
        processItems rest seen acc newCount
    | none => processItems rest seen acc newCount

/-- Result of a pagination call: the flattened items and how many page
fetches were performed. -/
structure FetchResult where
  items : List JValue
  fetches : Nat

/-- Embeds the while-true loop of clientGetAll, with explicit fuel
(none = fuel exhausted; the termination theorem shows enough fuel always
exists). The server maps a skip offset to the decoded response body. -/
def getAllLoop (server : Nat → JValue) : Nat → Nat → List String →
    List JValue → Nat → Option FetchResult
  | 0, _, _, _, _ => none
  | fuel + 1, skip, seen, acc, fetches =>
    match interpretResponse (server skip) with
    | PageShape.single v => some ⟨[v], fetches + 1⟩
    | PageShape.pageItems data =>
      if data.length = 0 then some ⟨acc, fetches + 1⟩
      else
        match processItems data seen acc 0 with
        | (seen2, acc2, newCount) =>
          if newCount = 0 then some ⟨acc2, fetches + 1⟩
          else getAllLoop server fuel (skip + data.length) seen2 acc2 (fetches + 1)

/-- Embeds clientGetAll: start at skip 0 with empty seen set and empty
accumulator. -/
def clientGetAll (server : Nat → JValue) (fuel : Nat) : Option FetchResult :=
  getAllLoop server fuel 0 [] [] 0

/-! Window Tracker -/

/-- Ascending stable sort, the semantics of the numeric comparator sort
in calculateOptimalWait. -/
def sortTimestamps (ts : List Int) : List Int :=
  List.insertionSort (fun a b => a ≤ b) ts

/-- Embeds cleanOldTimestamps: shift from the front while the oldest
timestamp is before the cutoff. -/
def cleanOldTimestamps (windowDurationMs now : Int) (ts : List Int) : List Int :=
  ts.dropWhile (fun t => t < now - windowDurationMs)

/-- Embeds calculateOptimalWait: zero when no timestamps are tracked;
otherwise sort ascending, index min(targetRecovery-1, length-1), and
wait until that timestamp leaves the window, floored at zero.
targetRecovery is a positive count (the bufferRequests configuration);
the Nat subtraction agrees with the source for targetRecovery >= 1. -/
def calculateOptimalWait (windowDurationMs : Int) (timestamps : List Int)
    (targetRecovery : Nat) (now : Int) : Int :=
  if timestamps.length = 0 then 0
  else
    let sorted := sortTimestamps timestamps
    let targetIndex := min (targetRecovery - 1) (timestamps.length - 1)
    let targetTimestamp := sorted.getD targetIndex 0
    max 0 (targetTimestamp + windowDurationMs - now)

/-! Throttle Gate -/

/-- Pre-dispatch delay of rateLimitedFetch: if less than RATE_LIMIT_DELAY
elapsed since the last request, wait out the difference. -/
def preDispatchWait (lastRequestTime now : Int) : Int :=
  let elapsed := now - lastRequestTime
  if elapsed < RATE_LIMIT_DELAY then RATE_LIMIT_DELAY - elapsed else 0

/-- Numeric value of a digit run (the parseInt applied to the captured
digit groups of the quota regex). -/
def digitsToNat (ds : List Char) : Nat :=
  ds.foldl (fun n c => n * 10 + (c.toNat - 48)) 0

/-- Embeds the regex search for a digits-slash-digits pattern: try each
start position left to right; at a digit, the greedy first group is the
maximal digit run (any backtracked shorter run is followed by a digit,
not the slash, so it never helps), which must be followed by a slash and
at least one digit. -/
def quotaSearch : List Char → Option (Nat × Nat)
  | [] => none
  | c :: rest =>
    if c.isDigit then
      let d1 := (c :: rest).takeWhile Char.isDigit
      match (c :: rest).dropWhile Char.isDigit with
      | '/' :: r2 =>
        let d2 := r2.takeWhile Char.isDigit
        if d2.length = 0 then quotaSearch rest
        else some (digitsToNat d1, digitsToNat d2)
      | _ => quotaSearch rest
    else quotaSearch rest

/-- Parse a used/max quota pair from the x-ratelimit-limit header value. -/
def parseQuota (s : String) : Option (Nat × Nat) :=
  quotaSearch s.data

/-- RateLimitPauseInfo snapshot passed to the onRateLimitPause hook. -/
structure PauseInfo where
  remaining : Int
  used : Nat
  max : Nat
  waitMs : Int
  requestsToRecover : Nat

/-- Embeds the proactive window check of rateLimitedFetch on a non-429
response: some info means a pause is triggered (hook fired, wait taken);
none means the check is silently skipped or the threshold not reached. -/
def proactiveCheck (windowThreshold windowDurationMs : Int)
    (bufferRequests : Nat) (timestamps : List Int) (now : Int)
    (header : Option String) : Option PauseInfo :=
  match header with
  | none => none
  | some s =>
    match parseQuota s with
    | none => none
    | some (used, mx) =>
      let remaining : Int := (mx : Int) - (used : Int)
      if remaining ≤ windowThreshold then
        some { remaining := remaining, used := used, max := mx,
               waitMs := calculateOptimalWait windowDurationMs timestamps bufferRequests now,
               requestsToRecover := bufferRequests }
      else none

/-! Retrying Transport -/

/-- HTTP response surface the client consumes. -/
structure HttpResponse where
  status : Nat
  retryAfter : Option String
  rateLimitHeader : Option String
  bodyText : String

/-- Longest leading digit run as a number; none when there is no leading
digit (parseInt returns NaN). -/
def parseLeadingDigits (cs : List Char) : Option Nat :=
  let ds := cs.takeWhile Char.isDigit
  if ds.length = 0 then none else some (digitsToNat ds)

/-- Embeds the parseInt(s, 10) call of parseRetryAfter: skip leading
whitespace, optional sign, then the longest digit run; none models NaN. -/
def parseJsInt (s : String) : Option Int :=
  match s.data.dropWhile Char.isWhitespace with
  | '-' :: rest => (parseLeadingDigits rest).map (fun n => -(n : Int))
  | '+' :: rest => (parseLeadingDigits rest).map (fun n => (n : Int))
  | rest => (parseLeadingDigits rest).map (fun n => (n : Int))

/-- Embeds parseRetryAfter. dateParse abstracts the host Date parser
(implementation-defined in JS): some t is a parsed absolute timestamp in
milliseconds, none models an invalid date. -/
def parseRetryAfter (dateParse : String → Option Int) (now : Int)
    (header : Option String) : Int :=
  match header with
  | none => DEFAULT_RETRY_DELAY
  | some s =>
    match parseJsInt s with
    | some seconds => seconds * 1000
    | none =>
      match dateParse s with
      | some t => max 0 (t - now)
      | none => DEFAULT_RETRY_DELAY

/-- Embeds the 429 retry recursion of rateLimitedFetch over an abstract
transport: responses gives the reply to the i-th attempt. Returns the
response handed to the caller and the number of transport attempts. -/
def fetch429Loop (responses : Nat → HttpResponse) (maxRetries : Nat)
    (retryCount : Nat) (attempted : Nat) : HttpResponse × Nat :=
  let response := responses attempted
  if response.status = 429 then
    if h : maxRetries ≤ retryCount then (response, attempted + 1)
    else fetch429Loop responses maxRetries (retryCount + 1) (attempted + 1)
  else (response, attempted + 1)
termination_by maxRetries - retryCount
decreasing_by omega

/-- Embeds rateLimitedFetch entered with retryCount = 0. -/
def rateLimitedFetch (responses : Nat → HttpResponse) : HttpResponse × Nat :=
  fetch429Loop responses MAX_RETRIES 0 0

/-! Request methods -/

/-- Fetch-API ok flag: status in the 2xx range. -/
def responseOk (status : Nat) : Bool :=
  200 ≤ status && status ≤ 299

/-- Outcome of clientGet / clientPut: the decoded value, a thrown
request failure carrying status and body text, or a body-decoding
failure on a successful status. -/
inductive RequestOutcome (α : Type) where
  | success (v : α)
  | httpFailure (status : Nat) (bodyText : String)
  | malformedBody (msg : String)

/-- Embeds the response handling of clientGet: non-ok throws an error
carrying the status and the body text; ok decodes the body as JSON.
jsonParse abstracts response.json() / JSON.parse. -/
def clientGet (jsonParse : String → Except String JValue)
    (resp : HttpResponse) : RequestOutcome JValue :=
  if responseOk resp.status then
    match jsonParse resp.bodyText with
    | Except.ok v => RequestOutcome.success v
    | Except.error e => RequestOutcome.malformedBody e
  else RequestOutcome.httpFailure resp.status resp.bodyText

/-- Embeds the response handling of clientPut: non-ok throws an error
carrying the status and the body text; ok with an empty body text
returns undefined (modelled none) without invoking the JSON decoder;
otherwise the body is decoded. -/
def clientPut (jsonParse : String → Except String JValue)
    (resp : HttpResponse) : RequestOutcome (Option JValue) :=
  if responseOk resp.status then
    if resp.bodyText = "" then RequestOutcome.success none
    else
      match jsonParse resp.bodyText with
      | Except.ok v => RequestOutcome.success (some v)
      | Except.error e => RequestOutcome.malformedBody e
  else RequestOutcome.httpFailure resp.status resp.bodyText

/-- One logical GET: the retrying transport followed by clientGet's
response handling; also reports the number of transport attempts. -/
def clientGetExchange (jsonParse : String → Except String JValue)
    (responses : Nat → HttpResponse) : RequestOutcome JValue × Nat :=
  let r := rateLimitedFetch responses
  (clientGet jsonParse r.1, r.2)

/-- One logical PUT: the retrying transport followed by clientPut's
response handling; also reports the number of transport attempts. -/
def clientPutExchange (jsonParse : String → Except String JValue)
    (responses : Nat → HttpResponse) : RequestOutcome (Option JValue) × Nat :=
  let r := rateLimitedFetch responses
  (clientPut jsonParse r.1, r.2)

/-! Measures and concrete fixtures -/

/-- Number of identifiers of the universe U not yet in the seen set; the
termination measure of the pagination loop. -/
def countNotSeen (U seen : List String) : Nat :=
  (U.filter (fun u => u ∉ seen)).length

/-- Fixture: an item carrying an extractable identifier a. -/
def itemA : JValue :=
  JValue.jobj [("productId", JValue.jstr "a"), ("name", JValue.jstr "x")]

/-- Fixture: an item carrying an extractable identifier b. -/
def itemB : JValue :=
  JValue.jobj [("productId", JValue.jstr "b")]

/-- Fixture: a server that answers every offset with the same 2-item
page. -/
def repeatServer : Nat → JValue :=
  fun _ => JValue.jarr [itemA, itemB]

/-- Fixture: an item with no field whose name ends in the Id suffix. -/
def noIdItem : JValue :=
  JValue.jobj [("name", JValue.jstr "x")]

/-- Fixture: a server whose first page holds one identifier-less item. -/
def noIdServer : Nat → JValue :=
  fun _ => JValue.jarr [noIdItem]

/-- Fixture: a server answering with a single bare item (no array, no
value envelope). -/
def bareItemServer : Nat → JValue :=
  fun _ => noIdItem

/-- Fixture: a transport rejecting every attempt with 429. -/
def always429 : Nat → HttpResponse :=
  fun _ => { status := 429, retryAfter := some "2",
             rateLimitHeader := none, bodyText := "rate limited" }

/-- Fixture: a transport answering 500 with a body on every attempt. -/
def always500 : Nat → HttpResponse :=
  fun _ => { status := 500, retryAfter := none,
             rateLimitHeader := none, bodyText := "server error" }

/-! Helper lemmas: the per-page item loop -/

theorem processItems_nil (seen : List String) (acc : List JValue) (n : Nat) :
    processItems [] seen acc n = (seen, acc, n) := rfl

theorem processItems_cons_none (item : JValue) (rest : List JValue)
    (seen : List String) (acc : List JValue) (n : Nat)
    (h : extractId item = none) :
    processItems (item :: rest) seen acc n = processItems rest seen acc n := by
  simp [processItems, h]

theorem processItems_cons_new (item : JValue) (rest : List JValue)
    (seen : List String) (acc : List JValue) (n : Nat) (id : String)
    (h : extractId item = some id) (hc : id ≠ "" ∧ id ∉ seen) :
    processItems (item :: rest) seen acc n =
      processItems rest (seen ++ [id]) (acc ++ [item]) (n + 1) := by
  simp [processItems, h, hc.1, hc.2]

theorem processItems_cons_old (item : JValue) (rest : List JValue)
    (seen : List String) (acc : List JValue) (n : Nat) (id : String)
    (h : extractId item = some id) (hc : ¬(id ≠ "" ∧ id ∉ seen)) :
    processItems (item :: rest) seen acc n = processItems rest seen acc n := by
  simp only [processItems, h]
  rw [if_neg hc]

theorem processItems_seen_mono (data : List JValue) :
    ∀ seen acc n x, x ∈ seen → x ∈ (processItems data seen acc n).1 := by
  induction data with
  | nil => intro seen acc n x hx; simpa [processItems_nil] using hx
  | cons item rest ih =>
    intro seen acc n x hx
    cases hid : extractId item with
    | none => rw [processItems_cons_none _ _ _ _ _ hid]; exact ih seen acc n x hx
    | some id =>
      by_cases hc : id ≠ "" ∧ id ∉ seen
      · rw [processItems_cons_new _ _ _ _ _ _ hid hc]
        exact ih (seen ++ [id]) (acc ++ [item]) (n + 1) x (by simp [hx])
      · rw [processItems_cons_old _ _ _ _ _ _ hid hc]
        exact ih seen acc n x hx

theorem processItems_new_id (data : List JValue) :
    ∀ seen acc n s2 a2 k, processItems data seen acc n = (s2, a2, k) → k ≠ n →
      ∃ id, id ∈ s2 ∧ id ∉ seen ∧ ∃ item, item ∈ data ∧ extractId item = some id := by
  induction data with
  | nil =>
    intro seen acc n s2 a2 k h hk
    rw [processItems_nil] at h
    exact absurd (congrArg (fun t => t.2.2) h).symm hk
  | cons item rest ih =>
    intro seen acc n s2 a2 k h hk
    cases hid : extractId item with
    | none =>
      rw [processItems_cons_none _ _ _ _ _ hid] at h
      obtain ⟨id, h1, h2, it, hit, hex⟩ := ih seen acc n s2 a2 k h hk
      exact ⟨id, h1, h2, it, List.mem_cons_of_mem _ hit, hex⟩
    | some id =>
      by_cases hc : id ≠ "" ∧ id ∉ seen
      · rw [processItems_cons_new _ _ _ _ _ _ hid hc] at h
        refine ⟨id, ?_, hc.2, item, List.mem_cons_self _ _, hid⟩
        have hm := processItems_seen_mono rest (seen ++ [id]) (acc ++ [item]) (n + 1) id (by simp)
        rw [h] at hm
        exact hm
      · rw [processItems_cons_old _ _ _ _ _ _ hid hc] at h
        obtain ⟨id2, h1, h2, it, hit, hex⟩ := ih seen acc n s2 a2 k h hk
        exact ⟨id2, h1, h2, it, List.mem_cons_of_mem _ hit, hex⟩

theorem processItems_seen_length (data : List JValue) :
    ∀ seen acc n, (processItems data seen acc n).1.length + n =
      seen.length + (processItems data seen acc n).2.2 := by
  induction data with
  | nil => intro seen acc n; simp [processItems_nil]
  | cons item rest ih =>
    intro seen acc n
    cases hid : extractId item with
    | none => rw [processItems_cons_none _ _ _ _ _ hid]; exact ih seen acc n
    | some id =>
      by_cases hc : id ≠ "" ∧ id ∉ seen
      · rw [processItems_cons_new _ _ _ _ _ _ hid hc]
        have := ih (seen ++ [id]) (acc ++ [item]) (n + 1)
        simp at this
        omega
      · rw [processItems_cons_old _ _ _ _ _ _ hid hc]
        exact ih seen acc n

/-! Helper lemmas: the termination measure -/

theorem countNotSeen_cons (u : String) (U s : List String) :
    countNotSeen (u :: U) s = (if u ∈ s then 0 else 1) + countNotSeen U s := by
  by_cases h : u ∈ s
  · simp [countNotSeen, List.filter_cons, h]
  · simp [countNotSeen, List.filter_cons, h]
    omega

theorem countNotSeen_mono (U : List String) (s1 s2 : List String)
    (h : ∀ x ∈ s1, x ∈ s2) : countNotSeen U s2 ≤ countNotSeen U s1 := by
  induction U with
  | nil => simp [countNotSeen]
  | cons u U' ih =>
    rw [countNotSeen_cons, countNotSeen_cons]
    by_cases h2 : u ∈ s2
    · by_cases h1 : u ∈ s1 <;> simp [h1, h2] <;> omega
    · have h1 : u ∉ s1 := fun hx => h2 (h u hx)
      simp [h1, h2]; omega

theorem countNotSeen_strict (U : List String) (s1 s2 : List String) (id : String)
    (hmono : ∀ x ∈ s1, x ∈ s2) (hU : id ∈ U) (h1 : id ∉ s1) (h2 : id ∈ s2) :
    countNotSeen U s2 < countNotSeen U s1 := by
  induction U with
  | nil => cases hU
  | cons u U' ih =>
    rw [countNotSeen_cons, countNotSeen_cons]
    rcases List.mem_cons.mp hU with rfl | hU'
    · simp [h1, h2]
      have := countNotSeen_mono U' s1 s2 hmono
      omega
    · have hlt := ih hU'
      by_cases hu2 : u ∈ s2
      · by_cases hu1 : u ∈ s1 <;> simp [hu1, hu2] <;> omega
      · have hu1 : u ∉ s1 := fun hx => hu2 (hmono u hx)
        simp [hu1, hu2]; omega

theorem countNotSeen_le_length (U s : List String) :
    countNotSeen U s ≤ U.length := by
  induction U with
  | nil => simp [countNotSeen]
  | cons u U' ih => rw [countNotSeen_cons]; simp; split <;> omega

/-! Helper lemmas: pagination loop steps and termination -/

theorem getAllLoop_single (server : Nat → JValue) (fuel skip : Nat)
    (seen : List String) (acc : List JValue) (fetches : Nat) (v : JValue)
    (h : interpretResponse (server skip) = PageShape.single v) :
    getAllLoop server (fuel + 1) skip seen acc fetches = some ⟨[v], fetches + 1⟩ := by
  simp [getAllLoop, h]

theorem getAllLoop_empty (server : Nat → JValue) (fuel skip : Nat)
    (seen : List String) (acc : List JValue) (fetches : Nat)
    (h : interpretResponse (server skip) = PageShape.pageItems []) :
    getAllLoop server (fuel + 1) skip seen acc fetches = some ⟨acc, fetches + 1⟩ := by
  simp [getAllLoop, h]

theorem getAllLoop_stale (server : Nat → JValue) (fuel skip : Nat)
    (seen : List String) (acc : List JValue) (fetches : Nat)
    (data : List JValue) (s2 : List String) (a2 : List JValue)
    (h : interpretResponse (server skip) = PageShape.pageItems data)
    (hne : data ≠ [])
    (hp : processItems data seen acc 0 = (s2, a2, 0)) :
    getAllLoop server (fuel + 1) skip seen acc fetches = some ⟨a2, fetches + 1⟩ := by
  simp [getAllLoop, h, hp, List.length_eq_zero, hne]

theorem getAllLoop_advance (server : Nat → JValue) (fuel skip : Nat)
    (seen : List String) (acc : List JValue) (fetches : Nat)
    (data : List JValue) (s2 : List String) (a2 : List JValue) (k : Nat)
    (h : interpretResponse (server skip) = PageShape.pageItems data)
    (hne : data ≠ [])
    (hp : processItems data seen acc 0 = (s2, a2, k)) (hk : k ≠ 0) :
    getAllLoop server (fuel + 1) skip seen acc fetches =
      getAllLoop server fuel (skip + data.length) s2 a2 (fetches + 1) := by
  simp [getAllLoop, h, hp, List.length_eq_zero, hne, hk]

theorem getAllLoop_terminates (server : Nat → JValue) (U : List String)
    (hU : ∀ skip item id, item ∈ pageItemsOf (server skip) →
      extractId item = some id → id ∈ U) :
    ∀ fuel seen skip acc fetches, countNotSeen U seen + 1 ≤ fuel →
      (getAllLoop server fuel skip seen acc fetches).isSome = true := by
  intro fuel
  induction fuel with
  | zero => intro seen skip acc fetches h; omega
  | succ fuel ih =>
    intro seen skip acc fetches h
    cases hshape : interpretResponse (server skip) with
    | single v => rw [getAllLoop_single server fuel skip seen acc fetches v hshape]; rfl
    | pageItems data =>
      by_cases hne : data = []
      · subst hne
        rw [getAllLoop_empty server fuel skip seen acc fetches hshape]; rfl
      · obtain ⟨⟨s2, a2, k⟩, hp⟩ : ∃ t, processItems data seen acc 0 = t := ⟨_, rfl⟩
        by_cases hk : k = 0
        · subst hk
          rw [getAllLoop_stale server fuel skip seen acc fetches data s2 a2 hshape hne hp]; rfl
        · rw [getAllLoop_advance server fuel skip seen acc fetches data s2 a2 k hshape hne hp hk]
          apply ih
          obtain ⟨id, hid2, hidns, item, hitem, hex⟩ :=
            processItems_new_id data seen acc 0 s2 a2 k hp hk
          have hdata : pageItemsOf (server skip) = data := by
            simp [pageItemsOf, hshape]
          have hidU : id ∈ U := hU skip item id (hdata ▸ hitem) hex
          have hmono : ∀ x ∈ seen, x ∈ s2 := by
            intro x hx
            have := processItems_seen_mono data seen acc 0 x hx
            rw [hp] at this
            exact this
          have := countNotSeen_strict U seen s2 id hmono hidU hidns hid2
          omega

/-! Helper lemmas: the retrying transport -/

theorem fetch429Loop_all (responses : Nat → HttpResponse)
    (h : ∀ i, (responses i).status = 429) :
    ∀ k m r a, m - r = k →
      fetch429Loop responses m r a = (responses (a + (m - r)), a + (m - r) + 1) := by
  intro k
  induction k with
  | zero =>
    intro m r a hk
    rw [fetch429Loop]
    have hle : m ≤ r := by omega
    simp [h a, hle, hk]
  | succ k ih =>
    intro m r a hk
    rw [fetch429Loop]
    have hle : ¬ m ≤ r := by omega
    simp only [h a, if_true, dif_neg hle]
    rw [ih m (r + 1) (a + 1) (by omega)]
    have e1 : a + 1 + (m - (r + 1)) = a + (m - r) := by omega
    rw [e1]

theorem fetch429Loop_attempts (responses : Nat → HttpResponse) :
    ∀ k m r a, m - r = k → (fetch429Loop responses m r a).2 ≤ a + 1 + (m - r) := by
  intro k
  induction k with
  | zero =>
    intro m r a hk
    rw [fetch429Loop]
    by_cases h429 : (responses a).status = 429
    · have hle : m ≤ r := by omega
      simp [h429, hle]
    · simp [h429]
  | succ k ih =>
    intro m r a hk
    rw [fetch429Loop]
    by_cases h429 : (responses a).status = 429
    · have hle : ¬ m ≤ r := by omega
      simp only [h429, if_true, dif_neg hle]
      have := ih m (r + 1) (a + 1) (by omega)
      omega
    · simp [h429]

theorem fetch429Loop_first_non429 (responses : Nat → HttpResponse)
    (m : Nat) (h : (responses 0).status ≠ 429) :
    fetch429Loop responses m 0 0 = (responses 0, 1) := by
  rw [fetch429Loop]
  simp [h]

/-! Helper lemmas: response shape and sortedness -/

theorem interpret_single (v : JValue)
    (h1 : ∀ elems, v ≠ JValue.jarr elems)
    (h2 : ∀ fields, v = JValue.jobj fields →
      ∀ elems, lookupField fields "value" ≠ some (JValue.jarr elems)) :
    interpretResponse v = PageShape.single v := by
  cases v with
  | jarr elems => exact absurd rfl (h1 elems)
  | jobj fields =>
    simp only [interpretResponse]
    cases hl : lookupField fields "value" with
    | none => rfl
    | some w =>
      cases w with
      | jarr elems => exact absurd hl (h2 fields rfl elems)
      | jnull => rfl
      | jbool b => rfl
      | jnum n => rfl
      | jstr s => rfl
      | jobj f2 => rfl
  | jnull => rfl
  | jbool b => rfl
  | jnum n => rfl
  | jstr s => rfl

theorem sorted_le_getD_last (l : List Int)
    (hs : List.Sorted (fun a b => a ≤ b) l) :
    ∀ x ∈ l, x ≤ l.getD (l.length - 1) 0 := by
  induction l with
  | nil => intro x hx; cases hx
  | cons a t ih =>
    intro x hx
    cases t with
    | nil =>
      rcases List.mem_singleton.mp hx with rfl
      simp
    | cons b t' =>
      have hcons := List.sorted_cons.mp hs
      have hs' : List.Sorted (fun a b => a ≤ b) (b :: t') := hcons.2
      have hstep : (a :: b :: t').getD ((a :: b :: t').length - 1) 0 =
          (b :: t').getD ((b :: t').length - 1) 0 := by
        simp [List.getD]
      rcases List.mem_cons.mp hx with rfl | hx'
      · rw [hstep]
        have hmem : (b :: t').getD ((b :: t').length - 1) 0 ∈ b :: t' := by
          rw [List.getD_eq_getElem _ _ (by simp)]
          exact List.getElem_mem _
        exact hcons.1 _ hmem
      · rw [hstep]
        exact ih hs' x hx'

end Inflow

namespace Inflow

/-- C6: between two consecutive dispatches through the same throttle
state, the second transport call never begins earlier than
RATE_LIMIT_DELAY after the recorded dispatch time of the first, and the
pre-dispatch delay equals RATE_LIMIT_DELAY - (now - lastDispatch)
whenever that difference is positive. -/
theorem min_spacing_enforced :
    (∀ lastDispatch now : Int,
      lastDispatch + RATE_LIMIT_DELAY ≤ now + preDispatchWait lastDispatch now) ∧
    (∀ lastDispatch now : Int,
      0 < RATE_LIMIT_DELAY - (now - lastDispatch) →
      preDispatchWait lastDispatch now = RATE_LIMIT_DELAY - (now - lastDispatch)) := by
  constructor
  · intro last now
    simp only [preDispatchWait]
    split <;> omega
  · intro last now h
    simp only [preDispatchWait]
    split <;> omega

/-- Witness for min_spacing_enforced at lastDispatch 0, now 500. -/
theorem min_spacing_enforced_witness :
    (0 : Int) + RATE_LIMIT_DELAY ≤ 500 + preDispatchWait 0 500 ∧
    preDispatchWait 0 500 = RATE_LIMIT_DELAY - (500 - 0) :=
  ⟨min_spacing_enforced.1 0 500, min_spacing_enforced.2 0 500 (by decide)⟩

/-- C8: the retry wait is hint*1000 when the hint parses as an integer,
max(0, timestamp - now) when it only parses as a date, and the default
delay when the header is absent or parses as neither. -/
theorem retry_hint_wait_duration :
    (∀ (dateParse : String → Option Int) (now : Int) (s : String) (n : Int),
      parseJsInt s = some n →
      parseRetryAfter dateParse now (some s) = n * 1000) ∧
    (∀ (dateParse : String → Option Int) (now : Int) (s : String) (t : Int),
      parseJsInt s = none → dateParse s = some t →
      parseRetryAfter dateParse now (some s) = max 0 (t - now)) ∧
    (∀ (dateParse : String → Option Int) (now : Int) (s : String),
      parseJsInt s = none → dateParse s = none →
      parseRetryAfter dateParse now (some s) = DEFAULT_RETRY_DELAY) ∧
    (∀ (dateParse : String → Option Int) (now : Int),
      parseRetryAfter dateParse now none = DEFAULT_RETRY_DELAY) := by
  refine ⟨?_, ?_, ?_, ?_⟩
  · intro dp now s n h; simp [parseRetryAfter, h]
  · intro dp now s t h1 h2; simp [parseRetryAfter, h1, h2]
  · intro dp now s h1 h2; simp [parseRetryAfter, h1, h2]
  · intro dp now; rfl

/-- Witness for retry_hint_wait_duration: the hint 2 gives a 2000 ms
wait whatever the date parser does. -/
theorem retry_hint_wait_duration_witness :
    parseRetryAfter (fun _ => none) 0 (some "2") = 2 * 1000 :=
  retry_hint_wait_duration.1 (fun _ => none) 0 "2" 2 (by decide)

/-- C10: a successful status with an empty body text makes clientPut
return undefined, whatever the JSON decoder would do. -/
theorem put_empty_body_undefined :
    ∀ (jsonParse : String → Except String JValue) (resp : HttpResponse),
      responseOk resp.status = true → resp.bodyText = "" →
      clientPut jsonParse resp = RequestOutcome.success none := by
  intro p resp hok hbody
  simp [clientPut, hok, hbody]

/-- Witness for put_empty_body_undefined: a 204 with empty body under a
decoder that rejects every input. -/
theorem put_empty_body_undefined_witness :
    clientPut (fun _ => Except.error "bad json")
      { status := 204, retryAfter := none, rateLimitHeader := none, bodyText := "" } =
      RequestOutcome.success none :=
  put_empty_body_undefined _ _ (by decide) rfl

/-- C4: a request rejected with 429 on every attempt performs exactly
maxRetries+1 transport attempts and hands the final rejection back
unmodified; in general the transport performs at most MAX_RETRIES+1
attempts. -/
theorem retry_cap_and_final_rejection :
    (∀ (responses : Nat → HttpResponse) (m : Nat),
      (∀ i, (responses i).status = 429) →
      fetch429Loop responses m 0 0 = (responses m, m + 1)) ∧
    (∀ responses : Nat → HttpResponse,
      (rateLimitedFetch responses).2 ≤ MAX_RETRIES + 1) := by
  constructor
  · intro responses m h
    have := fetch429Loop_all responses h (m - 0) m 0 0 rfl
    simpa using this
  · intro responses
    have := fetch429Loop_attempts responses (MAX_RETRIES - 0) MAX_RETRIES 0 0 rfl
    simpa [rateLimitedFetch] using this

/-- Witness for retry_cap_and_final_rejection: a transport rejecting
every attempt with 429 and MAX_RETRIES retries. -/
theorem retry_cap_and_final_rejection_witness :
    fetch429Loop always429 MAX_RETRIES 0 0 = (always429 MAX_RETRIES, MAX_RETRIES + 1) :=
  retry_cap_and_final_rejection.1 always429 MAX_RETRIES (fun _ => rfl)

/-- C7: a response whose status is neither a success nor 429 is
surfaced immediately by both clientGet and clientPut as a failure
carrying the status code and the body text, after exactly one transport
attempt. -/
theorem non_rejection_error_immediate :
    ∀ (jsonParse : String → Except String JValue) (responses : Nat → HttpResponse),
      (responses 0).status ≠ 429 → responseOk (responses 0).status = false →
      clientGetExchange jsonParse responses =
        (RequestOutcome.httpFailure (responses 0).status (responses 0).bodyText, 1) ∧
      clientPutExchange jsonParse responses =
        (RequestOutcome.httpFailure (responses 0).status (responses 0).bodyText, 1) := by
  intro p responses h429 hok
  have hf : rateLimitedFetch responses = (responses 0, 1) :=
    fetch429Loop_first_non429 responses MAX_RETRIES h429
  constructor
  · simp [clientGetExchange, clientGet, hf, hok]
  · simp [clientPutExchange, clientPut, hf, hok]

/-- Witness for non_rejection_error_immediate at a transport that
always answers 500. -/
theorem non_rejection_error_immediate_witness :
    clientGetExchange (fun _ => Except.error "x") always500 =
      (RequestOutcome.httpFailure 500 "server error", 1) ∧
    clientPutExchange (fun _ => Except.error "x") always500 =
      (RequestOutcome.httpFailure 500 "server error", 1) :=
  non_rejection_error_immediate (fun _ => Except.error "x") always500
    (by decide) (by decide)

end Inflow

namespace Inflow

/-- C3: a proactive pause is triggered iff the quota header is present,
parses as a slash-delimited used/max pair, and max - used is at most the
threshold; 981/1000 at threshold 20 pauses, 970/1000 does not; an
absent header or an unparseable value silently skips the check. -/
theorem proactive_pause_iff_quota_low :
    (∀ (th wd : Int) (buf : Nat) (ts : List Int) (now : Int) (header : Option String),
      (proactiveCheck th wd buf ts now header).isSome = true ↔
        ∃ s u m, header = some s ∧ parseQuota s = some (u, m) ∧
          (m : Int) - (u : Int) ≤ th) ∧
    (proactiveCheck 20 DEFAULT_WINDOW_DURATION DEFAULT_BUFFER_REQUESTS [] 0
      (some "981/1000")).isSome = true ∧
    (proactiveCheck 20 DEFAULT_WINDOW_DURATION DEFAULT_BUFFER_REQUESTS [] 0
      (some "970/1000")).isSome = false ∧
    (∀ (th wd : Int) (buf : Nat) (ts : List Int) (now : Int),
      proactiveCheck th wd buf ts now none = none) ∧
    (∀ (th wd : Int) (buf : Nat) (ts : List Int) (now : Int) (s : String),
      parseQuota s = none → proactiveCheck th wd buf ts now (some s) = none) := by
  refine ⟨?_, rfl, rfl, fun th wd buf ts now => rfl, ?_⟩
  · intro th wd buf ts now header
    cases header with
    | none => simp [proactiveCheck]
    | some s =>
      cases hq : parseQuota s with
      | none => simp [proactiveCheck, hq]
      | some um =>
        obtain ⟨u, m⟩ := um
        by_cases hle : (m : Int) - (u : Int) ≤ th
        · simp [proactiveCheck, hq, hle]
          exact ⟨u, m, ⟨rfl, rfl⟩, by omega⟩
        · simp [proactiveCheck, hq, hle]
          omega
  · intro th wd buf ts now s h
    simp [proactiveCheck, h]

/-- Witness for proactive_pause_iff_quota_low: an unparseable header is
silently skipped. -/
theorem proactive_pause_iff_quota_low_witness :
    proactiveCheck 20 DEFAULT_WINDOW_DURATION DEFAULT_BUFFER_REQUESTS [] 0
      (some "nolimit") = none :=
  proactive_pause_iff_quota_low.2.2.2.2 20 DEFAULT_WINDOW_DURATION
    DEFAULT_BUFFER_REQUESTS [] 0 "nolimit" (by decide)

/-- C9: a response that is neither an array nor an envelope with a
value array ends pagination at once with a one-element result and a
single page fetch. -/
theorem single_item_short_circuit :
    ∀ (server : Nat → JValue) (fuel : Nat),
      1 ≤ fuel →
      (∀ elems, server 0 ≠ JValue.jarr elems) →
      (∀ fields, server 0 = JValue.jobj fields →
        ∀ elems, lookupField fields "value" ≠ some (JValue.jarr elems)) →
      clientGetAll server fuel = some ⟨[server 0], 1⟩ := by
  intro server fuel hf h1 h2
  obtain ⟨k, rfl⟩ : ∃ k, fuel = k + 1 := ⟨fuel - 1, by omega⟩
  have := getAllLoop_single server k 0 [] [] 0 (server 0) (interpret_single _ h1 h2)
  simpa [clientGetAll] using this

/-- Witness for single_item_short_circuit at a server answering a bare
object without a value field. -/
theorem single_item_short_circuit_witness :
    clientGetAll bareItemServer 10 = some ⟨[bareItemServer 0], 1⟩ := by
  apply single_item_short_circuit bareItemServer 10 (by omega)
  · intro elems h
    simp [bareItemServer, noIdItem] at h
  · intro fields h elems
    simp only [bareItemServer, noIdItem] at h
    cases h
    simp [lookupField]

end Inflow

namespace Inflow

/-- C5: pagination over any server whose extractable identifiers are
drawn from a finite list U terminates within |U|+1 page fetches worth
of fuel; an empty page ends the loop; a page contributing zero new
items ends the loop; a non-terminating iteration strictly grows the
seen set; the server repeating one 2-item page forever is drained in
exactly 2 fetches. -/
theorem pagination_terminates :
    (∀ (server : Nat → JValue) (U : List String),
      (∀ skip item id, item ∈ pageItemsOf (server skip) →
        extractId item = some id → id ∈ U) →
      ∀ fuel, U.length + 1 ≤ fuel →
      (clientGetAll server fuel).isSome = true) ∧
    (∀ (server : Nat → JValue) (fuel skip : Nat) (seen : List String)
      (acc : List JValue) (fetches : Nat),
      interpretResponse (server skip) = PageShape.pageItems [] →
      getAllLoop server (fuel + 1) skip seen acc fetches = some ⟨acc, fetches + 1⟩) ∧
    (∀ (server : Nat → JValue) (fuel skip : Nat) (seen : List String)
      (acc : List JValue) (fetches : Nat) (data : List JValue)
      (s2 : List String) (a2 : List JValue),
      interpretResponse (server skip) = PageShape.pageItems data → data ≠ [] →
      processItems data seen acc 0 = (s2, a2, 0) →
      getAllLoop server (fuel + 1) skip seen acc fetches = some ⟨a2, fetches + 1⟩) ∧
    (∀ (data : List JValue) (seen : List String) (acc : List JValue)
      (s2 : List String) (a2 : List JValue) (k : Nat),
      processItems data seen acc 0 = (s2, a2, k) → k ≠ 0 →
      seen.length < s2.length) ∧
    clientGetAll repeatServer 10 = some ⟨[itemA, itemB], 2⟩ := by
  refine ⟨?_, ?_, ?_, ?_, rfl⟩
  · intro server U hU fuel hfuel
    apply getAllLoop_terminates server U hU
    have := countNotSeen_le_length U []
    omega
  · intro server fuel skip seen acc fetches h
    exact getAllLoop_empty server fuel skip seen acc fetches h
  · intro server fuel skip seen acc fetches data s2 a2 h hne hp
    exact getAllLoop_stale server fuel skip seen acc fetches data s2 a2 h hne hp
  · intro data seen acc s2 a2 k hp hk
    have := processItems_seen_length data seen acc 0
    rw [hp] at this
    simp at this
    omega

/-- Witness for pagination_terminates: the repeating 2-item server over
the identifier universe a, b terminates with fuel 3. -/
theorem pagination_terminates_witness :
    (clientGetAll repeatServer 3).isSome = true := by
  apply pagination_terminates.1 repeatServer ["a", "b"] ?_ 3 (by simp)
  intro skip item id hitem hex
  simp [repeatServer, pageItemsOf, interpretResponse] at hitem
  rcases hitem with rfl | rfl
  · rw [show extractId itemA = some "a" from rfl] at hex
    cases hex
    simp
  · rw [show extractId itemB = some "b" from rfl] at hex
    cases hex
    simp

end Inflow

namespace Inflow

/-- C1 counterexample: the page at offset 0 of noIdServer holds one item
with no extractable identifier, yet the pagination result is empty —
the claim that identifier-less items are always appended is false. -/
theorem idless_item_appended_refuted :
    ¬ (∀ (server : Nat → JValue) (fuel : Nat) (r : FetchResult),
        clientGetAll server fuel = some r →
        ∀ item, item ∈ pageItemsOf (server 0) → extractId item = none →
        item ∈ r.items) := by
  intro h
  have hm := h noIdServer 10 ⟨[], 1⟩ rfl noIdItem ?_ rfl
  · simp at hm
  · simp [noIdServer, pageItemsOf, interpretResponse]

/-- C1 amended: an item from which no identifier can be extracted is
skipped, contributing nothing to the seen set, the result, or the new
count; a page of only such items ends pagination with them dropped. -/
theorem idless_item_skipped :
    (∀ (item : JValue) (data : List JValue) (seen : List String)
      (acc : List JValue) (n : Nat),
      extractId item = none →
      processItems (item :: data) seen acc n = processItems data seen acc n) ∧
    (∀ (data : List JValue) (seen : List String) (acc : List JValue),
      (∀ item ∈ data, extractId item = none) →
      processItems data seen acc 0 = (seen, acc, 0)) ∧
    clientGetAll noIdServer 10 = some ⟨[], 1⟩ := by
  refine ⟨?_, ?_, rfl⟩
  · intro item data seen acc n h
    exact processItems_cons_none item data seen acc n h
  · intro data
    induction data with
    | nil => intro seen acc _; rfl
    | cons item rest ih =>
      intro seen acc hall
      rw [processItems_cons_none item rest seen acc 0 (hall item (by simp))]
      exact ih seen acc (fun it hit => hall it (by simp [hit]))

/-- Witness for idless_item_skipped at the identifier-less item. -/
theorem idless_item_skipped_witness :
    processItems [noIdItem] [] [] 0 = processItems [] [] [] 0 :=
  idless_item_skipped.1 noIdItem [] [] [] 0 rfl

/-- C2 counterexample: two timestamps tracked, target 5: fewer than
targetCount timestamps are tracked, yet the computed wait is 700, not
the zero the claim requires, and not the 600 that clamping to the
oldest timestamp (100) would give — the code clamps to the newest. -/
theorem optimal_wait_small_count_refuted :
    List.length [(100 : Int), 200] < 5 ∧
    calculateOptimalWait 1000 [100, 200] 5 500 = 700 ∧
    (700 : Int) ≠ 0 ∧
    (700 : Int) ≠ max 0 ((100 : Int) + 1000 - 500) := by
  refine ⟨by decide, by decide, by decide, by decide⟩

/-- C2 amended: the wait is zero when no timestamps are tracked; when at
least targetCount are tracked it is max(0, sorted[targetCount-1] +
windowDuration - now); when 0 < tracked < targetCount the index clamps
to the newest (maximum) tracked timestamp. -/
theorem optimal_wait_characterization :
    (∀ (wd : Int) (target : Nat) (now : Int),
      calculateOptimalWait wd [] target now = 0) ∧
    (∀ (wd : Int) (ts : List Int) (target : Nat) (now : Int),
      1 ≤ target → target ≤ ts.length →
      calculateOptimalWait wd ts target now =
        max 0 ((sortTimestamps ts).getD (target - 1) 0 + wd - now)) ∧
    (∀ (wd : Int) (ts : List Int) (target : Nat) (now : Int),
      ts ≠ [] → ts.length < target →
      ∃ m, m ∈ ts ∧ (∀ x ∈ ts, x ≤ m) ∧
        calculateOptimalWait wd ts target now = max 0 (m + wd - now)) := by
  refine ⟨?_, ?_, ?_⟩
  · intro wd target now; rfl
  · intro wd ts target now h1 h2
    have hne : ¬ ts.length = 0 := by omega
    simp only [calculateOptimalWait, hne, if_false]
    rw [show min (target - 1) (ts.length - 1) = target - 1 from by omega]
  · intro wd ts target now hne hlt
    have hlen0 : ts.length ≠ 0 := by
      intro h; exact hne (List.length_eq_zero.mp h)
    have hperm : List.Perm (sortTimestamps ts) ts :=
      List.perm_insertionSort (fun a b => a ≤ b) ts
    have hlen : (sortTimestamps ts).length = ts.length := hperm.length_eq
    have hsorted : List.Sorted (fun a b => a ≤ b) (sortTimestamps ts) :=
      List.sorted_insertionSort (fun a b => a ≤ b) ts
    refine ⟨(sortTimestamps ts).getD (ts.length - 1) 0, ?_, ?_, ?_⟩
    · have hidx : ts.length - 1 < (sortTimestamps ts).length := by omega
      rw [List.getD_eq_getElem _ _ hidx]
      exact hperm.mem_iff.mp (List.getElem_mem _)
    · intro x hx
      have hx' : x ∈ sortTimestamps ts := hperm.mem_iff.mpr hx
      have := sorted_le_getD_last (sortTimestamps ts) hsorted x hx'
      rwa [hlen] at this
    · simp only [calculateOptimalWait, hlen0, if_false]
      rw [show min (target - 1) (ts.length - 1) = ts.length - 1 from by omega]

/-- Witness for optimal_wait_characterization: one timestamp with
target 1, and two timestamps with target 5. -/
theorem optimal_wait_characterization_witness :
    (calculateOptimalWait 1000 [100] 1 500 =
      max 0 ((sortTimestamps [100]).getD 0 0 + 1000 - 500)) ∧
    (∃ m, m ∈ [(100 : Int), 200] ∧ (∀ x ∈ [(100 : Int), 200], x ≤ m) ∧
      calculateOptimalWait 1000 [100, 200] 5 500 = max 0 (m + 1000 - 500)) :=
  ⟨optimal_wait_characterization.2.1 1000 [100] 1 500 (by omega) (by simp),
   optimal_wait_characterization.2.2 1000 [100, 200] 5 500 (by simp) (by simp)⟩

end Inflow
